import Mathlib

/-!
# Verification of `sncosmo.utils.extinction.extinction_ratio_ccm`

Shallow embedding of `src/sncosmo/utils/extinction.py` over exact rationals.

The source is a single numpy routine computing the Cardelli/Clayton/Mathis
(1989) extinction ratio A(λ)/E(B−V) for wavelength(s) in Angstroms:

* `x = 1e4 / wavelength` (inverse microns) is computed per element;
* if any `x < 0.3` or `x > 11.` a `ValueError` naming the valid wavelength
  range is raised;
* coefficients `a`, `b` are filled in by boolean masks over `x`
  (infrared `x < 1.1`; optical/NIR `1.1 ≤ x < 3.3` with a selectable
  coefficient table; mid-UV `3.3 ≤ x < 8` with an additive correction on
  `5.9 < x < 8`; far-UV `x ≥ 8`);
* the result is `a * r_v + b`, returned as a scalar when the input was a
  scalar (`in_ndim == 0`) and as an array otherwise.

Numeric literals of the source are embedded as exact rationals.  The only
operation with no exact rational value is the infrared power `x ** 1.61`;
it is abstracted as an explicit function argument `powIR : ℚ → ℚ` standing
for `fun x => x ** 1.61` (both occurrences in the source, `0.574 * x**1.61`
and `-0.527 * x**1.61`, apply the same power to the same `x`).  No theorem
below depends on the values of `powIR`: every statement is universally
quantified over it.

Python raises both failures as `ValueError`; they are distinguished by
message, which we model as two constructors of `ExtError`, the domain error
carrying its exact message string and the configuration error carrying the
unrecognized `optical_coeffs` value that the source formats into its
message.
-/

/-- Optical/NIR coefficients from Cardelli (1989); `extinction.py` line 9. -/
def c1_ccm : List ℚ :=
  [1, 0.17699, -0.50447, -0.02427, 0.72085, 0.01979, -0.77530, 0.32999]

/-- Optical/NIR coefficients from Cardelli (1989); `extinction.py` line 10. -/
def c2_ccm : List ℚ :=
  [0, 1.41338, 2.28305, 1.07233, -5.38434, -0.62251, 5.30260, -2.09002]

/-- Optical/NIR coefficients from O'Donnell (1994); `extinction.py` line 13. -/
def c1_odonnell : List ℚ :=
  [1, 0.104, -0.609, 0.701, 1.137, -1.718, -0.827, 1.647, -0.505]

/-- Optical/NIR coefficients from O'Donnell (1994); `extinction.py` line 14. -/
def c2_odonnell : List ℚ :=
  [0, 1.952, 2.908, -3.989, -7.985, 11.102, 5.491, -10.805, 3.347]

/-- Far-UV coefficients, local `c1` of `extinction.py` line 157. -/
def c1_fuv : List ℚ := [-1.073, -0.628, 0.137, -0.070]

/-- Far-UV coefficients, local `c2` of `extinction.py` line 158. -/
def c2_fuv : List ℚ := [13.670, 4.257, -0.420, 0.374]

/-- `numpy.polyval c x`: Horner evaluation where `c[0]` is the coefficient of
the HIGHEST degree term (`p[0]*x**(N-1) + ... + p[N-1]`). -/
def polyval (c : List ℚ) (x : ℚ) : ℚ :=
  c.foldl (fun acc k => acc * x + k) 0

/-- The wavelength argument: `np.asarray` of a scalar (`ndim == 0`) or of a
list of values (`ndim == 1`). -/
inductive WaveInput where
  | scalar (w : ℚ)
  | vector (ws : List ℚ)
  deriving DecidableEq

/-- The returned extinction ratio: a scalar when the input was scalar
(`extinction_ratio[0]`), else the full array. -/
inductive ExtOutput where
  | scalar (v : ℚ)
  | vector (vs : List ℚ)
  deriving DecidableEq

/-- The two `ValueError` conditions of the source, told apart by message:
the wavelength-domain failure (line 110) with its message string, and the
unrecognized `optical_coeffs` failure (line 132) carrying the offending
selector value that the source interpolates into its message. -/
inductive ExtError where
  | domainError (msg : String)
  | configError (optical_coeffs : String)
  deriving DecidableEq

/-- Message of the domain `ValueError`, `extinction.py` lines 110-111. -/
def domainMsg : String :=
  "extinction only defined in wavelength range [909.091, 33333.3]."

/-- Selector dispatch of `extinction.py` lines 127-133: `'odonnell'` and
`'ccm'` name their coefficient tables, anything else is the error case. -/
def opticalTables (optical_coeffs : String) : Option (List ℚ × List ℚ) :=
  if optical_coeffs = "odonnell" then some (c1_odonnell, c2_odonnell)
  else if optical_coeffs = "ccm" then some (c1_ccm, c2_ccm)
  else none

/-- Infrared mask `x < 1.1`, `extinction.py` line 117. -/
def maskIR (x : ℚ) : Bool := decide (x < 1.1)

/-- Optical/NIR mask `(x >= 1.1) & (x < 3.3)`, `extinction.py` line 123. -/
def maskOptical (x : ℚ) : Bool := decide (1.1 ≤ x) && decide (x < 3.3)

/-- Mid-UV mask `(x >= 3.3) & (x < 8.)`, `extinction.py` line 141. -/
def maskMidUV (x : ℚ) : Bool := decide (3.3 ≤ x) && decide (x < 8)

/-- Correction mask `(x > 5.9) & (x < 8.)`, `extinction.py` line 147. -/
def maskCorr (x : ℚ) : Bool := decide (5.9 < x) && decide (x < 8)

/-- Far-UV mask `x >= 8.`, `extinction.py` line 154. -/
def maskFarUV (x : ℚ) : Bool := decide (8 ≤ x)

/-- Per-element computation of the coefficient pair `(a, b)` from the masked
region blocks of `extinction.py` lines 116-160.  The masks are disjoint, so
the array writes of the source assign each element exactly once and the
per-element reading is faithful; the `5.9 < x < 8` correction block adds to
the values already written by the mid-UV block, which is the nested branch
here.  The selector is validated inside the optical block, exactly as
in the source (lines 127-133), so an unrecognized selector errors iff the
element lies in the optical band; since a raised exception aborts the whole
call, raising at the offending element is observably the source's behaviour.
The final fallthrough returns the `np.empty` placeholder value of an element
written by no region block; the masks are exhaustive (see the C5 theorem),
so it is never reached for any real `x`. -/
def abElem (powIR : ℚ → ℚ) (optical_coeffs : String) (x : ℚ) :
    Except ExtError (ℚ × ℚ) :=
  if maskIR x then
    .ok (0.574 * powIR x, -0.527 * powIR x)
  else if maskOptical x then
    match opticalTables optical_coeffs with
    | some (c1, c2) =>
        let xp := x - 1.82
        .ok (polyval c1.reverse xp, polyval c2.reverse xp)
    | none => .error (.configError optical_coeffs)
  else if maskMidUV x then
    let a0 := 1.752 - 0.316 * x - 0.104 / ((x - 4.67) ^ 2 + 0.341)
    let b0 := -3.090 + 1.825 * x + 1.206 / ((x - 4.67) ^ 2 + 0.263)
    if maskCorr x then
      let xp := x - 5.9
      .ok (a0 + (-0.04473 * xp ^ 2 - 0.009779 * xp ^ 3),
           b0 + (0.2130 * xp ^ 2 + 0.1207 * xp ^ 3))
    else
      .ok (a0, b0)
  else if maskFarUV x then
    let xp := x - 8
    .ok (polyval c1_fuv.reverse xp, polyval c2_fuv.reverse xp)
  else
    .ok (0, 0)

/-- Error-propagating map: the element-wise evaluation where any raised
exception aborts the whole call with no partial result. -/
def mapExcept (f : ℚ → Except ExtError (ℚ × ℚ)) :
    List ℚ → Except ExtError (List (ℚ × ℚ))
  | [] => .ok []
  | x :: xs =>
      match f x with
      | .error e => .error e
      | .ok p =>
          match mapExcept f xs with
          | .error e => .error e
          | .ok ps => .ok (p :: ps)

/-- The flat (raveled) pipeline of `extinction_ratio_ccm`: convert to inverse
microns (line 108), fail on any out-of-domain element (lines 109-111),
compute `(a, b)` per element (lines 113-160) and return `a * r_v + b`
(line 162). -/
def evaluateList (powIR : ℚ → ℚ) (r_v : ℚ) (optical_coeffs : String)
    (ws : List ℚ) : Except ExtError (List ℚ) :=
  let xs := ws.map (fun w => 10000 / w)
  if xs.any (fun x => decide (x < 0.3) || decide (11 < x)) then
    .error (.domainError domainMsg)
  else
    (mapExcept (abElem powIR optical_coeffs) xs).map
      (fun ps => ps.map (fun p => p.1 * r_v + p.2))

/-- The raveled element list of the input, `wavelength.ravel()` of
`extinction.py` line 108: a scalar becomes a one-element array. -/
def WaveInput.toList : WaveInput → List ℚ
  | .scalar w => [w]
  | .vector ws => ws

/-- Lowest-degree-first polynomial value: `polyLF [c0, c1, ...] x` is
`c0 + c1·x + c2·x² + ...` (index 0 is the constant term). -/
def polyLF : List ℚ → ℚ → ℚ
  | [], _ => 0
  | k :: ks, x => k + x * polyLF ks x

/-- Modelled from the spec (§4.1 algorithm, step list): the coefficient
`a(x)` of the piecewise model, with every polynomial written as an explicit
lowest-degree-first sum (index 0 the constant term) and the `5.9 < x < 8`
correction added on top of the mid-UV base value.  This is the spec-side
definition for the refinement claim C1, to be compared with the source-side
`abElem`; `powIR` again stands for `fun x => x ** 1.61` and `c1` for the
selected optical table. -/
def aModel (powIR : ℚ → ℚ) (c1 : List ℚ) (x : ℚ) : ℚ :=
  if x < 1.1 then 0.574 * powIR x
  else if x < 3.3 then
    ∑ i ∈ Finset.range c1.length, c1.getD i 0 * (x - 1.82) ^ i
  else if x < 8 then
    1.752 - 0.316 * x - 0.104 / ((x - 4.67) ^ 2 + 0.341)
      + (if 5.9 < x then
          -0.04473 * (x - 5.9) ^ 2 - 0.009779 * (x - 5.9) ^ 3 else 0)
  else
    ∑ i ∈ Finset.range c1_fuv.length, c1_fuv.getD i 0 * (x - 8) ^ i

/-- Modelled from the spec (§4.1 algorithm, step list): the coefficient
`b(x)` of the piecewise model, spec-side counterpart of `aModel`; `c2` is
the selected optical table. -/
def bModel (powIR : ℚ → ℚ) (c2 : List ℚ) (x : ℚ) : ℚ :=
  if x < 1.1 then -0.527 * powIR x
  else if x < 3.3 then
    ∑ i ∈ Finset.range c2.length, c2.getD i 0 * (x - 1.82) ^ i
  else if x < 8 then
    -3.090 + 1.825 * x + 1.206 / ((x - 4.67) ^ 2 + 0.263)
      + (if 5.9 < x then
          0.2130 * (x - 5.9) ^ 2 + 0.1207 * (x - 5.9) ^ 3 else 0)
  else
    ∑ i ∈ Finset.range c2_fuv.length, c2_fuv.getD i 0 * (x - 8) ^ i

/-- `extinction_ratio_ccm(wavelength, r_v, optical_coeffs)` of
`extinction.py` lines 16-165 (source defaults: `r_v=3.1`,
`optical_coeffs='odonnell'`).  A scalar input (`in_ndim == 0`) returns
`extinction_ratio[0]`, the sole element of the length-1 raveled result;
a vector input returns the full array (lines 163-165). -/
def extinction_ratio_ccm (powIR : ℚ → ℚ) (wavelength : WaveInput)
    (r_v : ℚ) (optical_coeffs : String) : Except ExtError ExtOutput :=
  match wavelength with
  | .scalar w =>
      (evaluateList powIR r_v optical_coeffs [w]).map
        (fun vs => .scalar vs.headI)
  | .vector ws =>
      (evaluateList powIR r_v optical_coeffs ws).map .vector

/-! ## Supporting lemmas -/

/-- `np.polyval(np.flipud(c), x)` is the lowest-degree-first value of `c`:
reversing the list turns numpy's highest-degree-first Horner scheme into the
ascending-coefficient reading (comment of `extinction.py` lines 135-136). -/
theorem polyval_reverse (c : List ℚ) (x : ℚ) :
    polyval c.reverse x = polyLF c x := by
  unfold polyval
  rw [List.foldl_reverse]
  induction c with
  | nil => rfl
  | cons k ks ih => rw [List.foldr_cons, polyLF, ih]; ring

/-- `polyLF` is the explicit sum `∑ c[i]·xⁱ` with index 0 the constant
term. -/
theorem polyLF_eq_sum (c : List ℚ) (x : ℚ) :
    polyLF c x = ∑ i ∈ Finset.range c.length, c.getD i 0 * x ^ i := by
  induction c with
  | nil => simp [polyLF]
  | cons k ks ih =>
      rw [polyLF, ih, List.length_cons, Finset.sum_range_succ', Finset.mul_sum]
      simp only [List.getD_cons_succ, List.getD_cons_zero, pow_zero, mul_one,
        pow_succ]
      rw [add_comm]
      exact congrArg (· + k) (Finset.sum_congr rfl (fun i _ => by ring))

theorem except_map_error_iff {α β : Type} (f : α → β) (t : Except ExtError α)
    (e : ExtError) : t.map f = .error e ↔ t = .error e := by
  cases t <;> simp [Except.map]

theorem except_map_eq_ok {α β : Type} (f : α → β) (t : Except ExtError α)
    (b : β) : t.map f = .ok b ↔ ∃ a, t = .ok a ∧ f a = b := by
  cases t <;> simp [Except.map]

theorem maskIR_iff (x : ℚ) : maskIR x = true ↔ x < 1.1 := by
  simp [maskIR]

theorem maskOptical_iff (x : ℚ) :
    maskOptical x = true ↔ 1.1 ≤ x ∧ x < 3.3 := by
  simp [maskOptical]

theorem maskMidUV_iff (x : ℚ) : maskMidUV x = true ↔ 3.3 ≤ x ∧ x < 8 := by
  simp [maskMidUV]

theorem maskCorr_iff (x : ℚ) : maskCorr x = true ↔ 5.9 < x ∧ x < 8 := by
  simp [maskCorr]

theorem maskFarUV_iff (x : ℚ) : maskFarUV x = true ↔ 8 ≤ x := by
  simp [maskFarUV]

/-- Refinement of the per-element computation: with a recognized selector,
the source-side `abElem` produces exactly the spec-side `(aModel, bModel)`
pair, for every `x`. -/
theorem abElem_eq_model {s : String} {t1 t2 : List ℚ}
    (ht : opticalTables s = some (t1, t2)) (powIR : ℚ → ℚ) (x : ℚ) :
    abElem powIR s x = .ok (aModel powIR t1 x, bModel powIR t2 x) := by
  unfold abElem aModel bModel
  rw [ht]
  rcases lt_or_le x 1.1 with h1 | h1
  · rw [if_pos ((maskIR_iff x).mpr h1), if_pos h1, if_pos h1]
  · have hIR : ¬ maskIR x = true := by
      simp only [maskIR, decide_eq_true_eq]
      exact not_lt.mpr h1
    rw [if_neg hIR, if_neg (not_lt.mpr h1), if_neg (not_lt.mpr h1)]
    rcases lt_or_le x 3.3 with h2 | h2
    · rw [if_pos ((maskOptical_iff x).mpr ⟨h1, h2⟩), if_pos h2, if_pos h2]
      show Except.ok (polyval t1.reverse (x - 1.82),
        polyval t2.reverse (x - 1.82)) = _
      rw [polyval_reverse, polyval_reverse, polyLF_eq_sum, polyLF_eq_sum]
    · have hOpt : ¬ maskOptical x = true := by
        simp only [maskOptical, Bool.and_eq_true, decide_eq_true_eq]
        exact fun hc => absurd hc.2 (not_lt.mpr h2)
      rw [if_neg hOpt, if_neg (not_lt.mpr h2), if_neg (not_lt.mpr h2)]
      rcases lt_or_le x 8 with h3 | h3
      · rw [if_pos ((maskMidUV_iff x).mpr ⟨h2, h3⟩), if_pos h3, if_pos h3]
        rcases lt_or_le 5.9 x with h4 | h4
        · rw [if_pos ((maskCorr_iff x).mpr ⟨h4, h3⟩), if_pos h4, if_pos h4]
        · have hCorr : ¬ maskCorr x = true := by
            simp only [maskCorr, Bool.and_eq_true, decide_eq_true_eq]
            exact fun hc => absurd hc.1 (not_lt.mpr h4)
          rw [if_neg hCorr, if_neg (not_lt.mpr h4), if_neg (not_lt.mpr h4),
            add_zero, add_zero]
      · have hMid : ¬ maskMidUV x = true := by
          simp only [maskMidUV, Bool.and_eq_true, decide_eq_true_eq]
          exact fun hc => absurd hc.2 (not_lt.mpr h3)
        rw [if_neg hMid, if_neg (not_lt.mpr h3), if_neg (not_lt.mpr h3),
          if_pos ((maskFarUV_iff x).mpr h3)]
        show Except.ok (polyval c1_fuv.reverse (x - 8),
          polyval c2_fuv.reverse (x - 8)) = _
        rw [polyval_reverse, polyval_reverse, polyLF_eq_sum, polyLF_eq_sum]

theorem mapExcept_ok_of_forall {f : ℚ → Except ExtError (ℚ × ℚ)}
    {g : ℚ → ℚ × ℚ} (xs : List ℚ) (h : ∀ x ∈ xs, f x = .ok (g x)) :
    mapExcept f xs = .ok (xs.map g) := by
  induction xs with
  | nil => rfl
  | cons x xs ih =>
      simp only [mapExcept, h x (List.mem_cons_self x xs),
        ih (fun y hy => h y (List.mem_cons_of_mem x hy)), List.map_cons]

theorem mapExcept_error_mem {f : ℚ → Except ExtError (ℚ × ℚ)} {xs : List ℚ}
    {e : ExtError} (h : mapExcept f xs = .error e) :
    ∃ x ∈ xs, f x = .error e := by
  induction xs with
  | nil => exact absurd h (by simp [mapExcept])
  | cons x xs ih =>
      cases hfx : f x with
      | error e1 =>
          simp only [mapExcept, hfx, Except.error.injEq] at h
          exact ⟨x, List.mem_cons_self x xs, by rw [hfx, h]⟩
      | ok p =>
          cases hrest : mapExcept f xs with
          | error e2 =>
              simp only [mapExcept, hfx, hrest, Except.error.injEq] at h
              obtain ⟨y, hy, hfy⟩ := ih (by rw [hrest, h])
              exact ⟨y, List.mem_cons_of_mem x hy, hfy⟩
          | ok ps => simp only [mapExcept, hfx, hrest] at h
                     exact absurd h (by simp)

theorem mapExcept_error_of_mem {f : ℚ → Except ExtError (ℚ × ℚ)}
    {xs : List ℚ} {x : ℚ} {e : ExtError} (hx : x ∈ xs)
    (hfx : f x = .error e)
    (huniq : ∀ y e1, f y = .error e1 → e1 = e) :
    mapExcept f xs = .error e := by
  induction xs with
  | nil => cases hx
  | cons y ys ih =>
      cases hfy : f y with
      | error e1 =>
          simp only [mapExcept, hfy, Except.error.injEq]
          exact huniq y e1 hfy
      | ok p =>
          rcases List.mem_cons.mp hx with rfl | hx'
          · rw [hfx] at hfy
            exact Except.noConfusion hfy
          · simp only [mapExcept, hfy, ih hx']

theorem mapExcept_ok_spec {f : ℚ → Except ExtError (ℚ × ℚ)} :
    ∀ {xs : List ℚ} {ps : List (ℚ × ℚ)}, mapExcept f xs = .ok ps →
      ps.length = xs.length ∧
      ∀ i (h1 : i < xs.length) (h2 : i < ps.length),
        f (xs.get ⟨i, h1⟩) = .ok (ps.get ⟨i, h2⟩) := by
  intro xs
  induction xs with
  | nil =>
      intro ps h
      simp only [mapExcept, Except.ok.injEq] at h
      subst h
      exact ⟨rfl, fun i h1 _ => absurd h1 (Nat.not_lt_zero i)⟩
  | cons x xs ih =>
      intro ps h
      cases hfx : f x with
      | error e1 =>
          simp only [mapExcept, hfx] at h
          exact absurd h (by simp)
      | ok p =>
          cases hrest : mapExcept f xs with
          | error e2 =>
              simp only [mapExcept, hfx, hrest] at h
              exact absurd h (by simp)
          | ok qs =>
              simp only [mapExcept, hfx, hrest, Except.ok.injEq] at h
              subst h
              obtain ⟨hlen, hget⟩ := ih hrest
              refine ⟨by simp [hlen], ?_⟩
              intro i h1 h2
              cases i with
              | zero => simpa using hfx
              | succ j =>
                  simpa using hget j (by simpa using h1) (by simpa using h2)

/-- `abElem` raises exactly one exception: the unrecognized-selector error,
and only at an element of the optical band. -/
theorem abElem_error_iff {powIR : ℚ → ℚ} {s : String} {x : ℚ}
    {e : ExtError} :
    abElem powIR s x = .error e ↔
      e = .configError s ∧ opticalTables s = none ∧ maskOptical x = true := by
  unfold abElem
  cases hIR : maskIR x with
  | true =>
      rw [if_pos rfl]
      constructor
      · intro h; exact Except.noConfusion h
      · rintro ⟨-, -, hopt⟩
        have h1 := (maskIR_iff x).mp hIR
        have h2 := ((maskOptical_iff x).mp hopt).1
        linarith
  | false =>
      rw [if_neg (by simp)]
      cases hOpt : maskOptical x with
      | true =>
          rw [if_pos rfl]
          rcases hT : opticalTables s with _ | t
          · simp [eq_comm]
          · obtain ⟨t1, t2⟩ := t
            simp [hT]
      | false =>
          rw [if_neg (by simp)]
          cases hMid : maskMidUV x with
          | true =>
              rw [if_pos rfl]
              cases hCorr : maskCorr x with
              | true => rw [if_pos rfl]; simp
              | false => rw [if_neg (by simp)]; simp
          | false =>
              rw [if_neg (by simp)]
              cases hFar : maskFarUV x with
              | true => rw [if_pos rfl]; simp
              | false => rw [if_neg (by simp)]; simp

/-- With every element inside the valid domain, the out-of-range check of
`extinction.py` line 109 is false. -/
theorem anyCheck_false {ws : List ℚ}
    (hdom : ∀ w ∈ ws, 0.3 ≤ 10000 / w ∧ 10000 / w ≤ 11) :
    ((ws.map fun w => 10000 / w).any
      fun x => decide (x < 0.3) || decide (11 < x)) = false := by
  rw [List.any_eq_false]
  intro x hx
  rw [List.mem_map] at hx
  obtain ⟨w, hw, rfl⟩ := hx
  simp only [Bool.or_eq_true, decide_eq_true_eq, not_or, not_lt]
  exact ⟨(hdom w hw).1, (hdom w hw).2⟩

/-- Success path of the raveled pipeline: recognized selector and in-domain
elements yield the spec-side value at every element. -/
theorem evaluateList_ok_of {powIR : ℚ → ℚ} {r_v : ℚ} {s : String}
    {t1 t2 : List ℚ} {ws : List ℚ} (ht : opticalTables s = some (t1, t2))
    (hdom : ∀ w ∈ ws, 0.3 ≤ 10000 / w ∧ 10000 / w ≤ 11) :
    evaluateList powIR r_v s ws =
      .ok (ws.map fun w =>
        aModel powIR t1 (10000 / w) * r_v + bModel powIR t2 (10000 / w)) := by
  unfold evaluateList
  dsimp only
  rw [anyCheck_false hdom, if_neg (by simp),
    mapExcept_ok_of_forall (g := fun x =>
      (aModel powIR t1 x, bModel powIR t2 x)) _
      (fun x _ => abElem_eq_model ht powIR x)]
  simp [Except.map, List.map_map]

/-- The domain failure of the raveled pipeline happens exactly when some
element maps outside `[0.3, 11]` inverse microns. -/
theorem evaluateList_domain_iff {powIR : ℚ → ℚ} {r_v : ℚ} {s : String}
    {ws : List ℚ} :
    evaluateList powIR r_v s ws = .error (.domainError domainMsg) ↔
      ∃ w ∈ ws, 10000 / w < 0.3 ∨ 11 < 10000 / w := by
  unfold evaluateList
  dsimp only
  cases hAny : (ws.map fun w => 10000 / w).any
      (fun x => decide (x < 0.3) || decide (11 < x)) with
  | true =>
      rw [if_pos rfl]
      refine iff_of_true rfl ?_
      rw [List.any_eq_true] at hAny
      obtain ⟨x, hx, hpx⟩ := hAny
      rw [List.mem_map] at hx
      obtain ⟨w, hw, rfl⟩ := hx
      simp only [Bool.or_eq_true, decide_eq_true_eq] at hpx
      exact ⟨w, hw, hpx⟩
  | false =>
      rw [if_neg (by simp)]
      refine iff_of_false ?_ ?_
      · intro h
        rw [except_map_error_iff] at h
        obtain ⟨x, hx, hfx⟩ := mapExcept_error_mem h
        obtain ⟨heq, -, -⟩ := abElem_error_iff.mp hfx
        exact ExtError.noConfusion heq
      · rintro ⟨w, hw, hout⟩
        rw [List.any_eq_false] at hAny
        have hnot := hAny (10000 / w) (List.mem_map.mpr ⟨w, hw, rfl⟩)
        simp only [Bool.or_eq_true, decide_eq_true_eq, not_or] at hnot
        rcases hout with h | h
        · exact absurd h hnot.1
        · exact absurd h hnot.2

/-- The configuration failure of the raveled pipeline: with all elements in
the valid domain, the unrecognized-selector error is raised exactly when the
selector names no table AND some element lies in the optical band, because
the source only consults `optical_coeffs` inside that band's block. -/
theorem evaluateList_config_iff {powIR : ℚ → ℚ} {r_v : ℚ} {s : String}
    {ws : List ℚ} (hdom : ∀ w ∈ ws, 0.3 ≤ 10000 / w ∧ 10000 / w ≤ 11) :
    evaluateList powIR r_v s ws = .error (.configError s) ↔
      opticalTables s = none ∧
        ∃ w ∈ ws, 1.1 ≤ 10000 / w ∧ 10000 / w < 3.3 := by
  unfold evaluateList
  dsimp only
  rw [anyCheck_false hdom, if_neg (by simp), except_map_error_iff]
  constructor
  · intro h
    obtain ⟨x, hx, hfx⟩ := mapExcept_error_mem h
    obtain ⟨-, hnone, hopt⟩ := abElem_error_iff.mp hfx
    rw [List.mem_map] at hx
    obtain ⟨w, hw, rfl⟩ := hx
    exact ⟨hnone, w, hw, (maskOptical_iff _).mp hopt⟩
  · rintro ⟨hnone, w, hw, hband⟩
    exact mapExcept_error_of_mem (List.mem_map.mpr ⟨w, hw, rfl⟩)
      (abElem_error_iff.mpr ⟨rfl, hnone, (maskOptical_iff _).mpr hband⟩)
      (fun y e1 h1 => (abElem_error_iff.mp h1).1)

/-- The raveled pipeline raises only the two errors of the source. -/
theorem evaluateList_error_cases {powIR : ℚ → ℚ} {r_v : ℚ} {s : String}
    {ws : List ℚ} {e : ExtError}
    (h : evaluateList powIR r_v s ws = .error e) :
    e = .domainError domainMsg ∨ e = .configError s := by
  unfold evaluateList at h
  dsimp only at h
  by_cases hAny : ((ws.map fun w => 10000 / w).any
      fun x => decide (x < 0.3) || decide (11 < x)) = true
  · rw [if_pos hAny] at h
    injection h with h'
    exact Or.inl h'.symm
  · rw [if_neg hAny, except_map_error_iff] at h
    obtain ⟨x, hx, hfx⟩ := mapExcept_error_mem h
    exact Or.inr (abElem_error_iff.mp hfx).1

/-- Any call either returns a value or raises one of the two errors. -/
theorem extinction_cases (powIR : ℚ → ℚ) (input : WaveInput) (r_v : ℚ)
    (s : String) :
    (∃ v, extinction_ratio_ccm powIR input r_v s = .ok v) ∨
    extinction_ratio_ccm powIR input r_v s =
      .error (.domainError domainMsg) ∨
    extinction_ratio_ccm powIR input r_v s = .error (.configError s) := by
  cases input with
  | scalar w =>
      cases hE : evaluateList powIR r_v s [w] with
      | ok vs =>
          exact Or.inl ⟨.scalar vs.headI, by
            rw [show extinction_ratio_ccm powIR (.scalar w) r_v s =
                (evaluateList powIR r_v s [w]).map
                  (fun vs => ExtOutput.scalar vs.headI) from rfl, hE]
            rfl⟩
      | error e =>
          have hcast : extinction_ratio_ccm powIR (.scalar w) r_v s =
              .error e := by
            rw [show extinction_ratio_ccm powIR (.scalar w) r_v s =
                (evaluateList powIR r_v s [w]).map
                  (fun vs => ExtOutput.scalar vs.headI) from rfl, hE]
            rfl
          rcases evaluateList_error_cases hE with h | h <;>
            rw [h] at hcast
          · exact Or.inr (Or.inl hcast)
          · exact Or.inr (Or.inr hcast)
  | vector ws =>
      cases hE : evaluateList powIR r_v s ws with
      | ok vs =>
          exact Or.inl ⟨.vector vs, by
            rw [show extinction_ratio_ccm powIR (.vector ws) r_v s =
                (evaluateList powIR r_v s ws).map .vector from rfl, hE]
            rfl⟩
      | error e =>
          have hcast : extinction_ratio_ccm powIR (.vector ws) r_v s =
              .error e := by
            rw [show extinction_ratio_ccm powIR (.vector ws) r_v s =
                (evaluateList powIR r_v s ws).map .vector from rfl, hE]
            rfl
          rcases evaluateList_error_cases hE with h | h <;>
            rw [h] at hcast
          · exact Or.inr (Or.inl hcast)
          · exact Or.inr (Or.inr hcast)

/-! ## Claim theorems -/

/-- C1: for every wavelength array whose elements all map into `[0.3, 11]`
inverse microns, under any recognized coefficient selector, the per-element
result of `extinction_ratio_ccm` is `a(x)·r_v + b(x)` where `(a, b)` follow
the piecewise model with every polynomial table (optical CCM or O'Donnell,
and far-UV) read lowest-degree-first — index 0 the constant term — as the
spec-side `aModel`/`bModel` spell out via explicit sums. -/
theorem C1_result_eq_model (powIR : ℚ → ℚ) (ws : List ℚ) (r_v : ℚ)
    (s : String) (t1 t2 : List ℚ) (ht : opticalTables s = some (t1, t2))
    (hdom : ∀ w ∈ ws, 0.3 ≤ 10000 / w ∧ 10000 / w ≤ 11) :
    extinction_ratio_ccm powIR (.vector ws) r_v s =
      .ok (.vector (ws.map fun w =>
        aModel powIR t1 (10000 / w) * r_v + bModel powIR t2 (10000 / w))) := by
  rw [show extinction_ratio_ccm powIR (.vector ws) r_v s =
      (evaluateList powIR r_v s ws).map .vector from rfl,
    evaluateList_ok_of ht hdom]
  rfl

theorem C1_witness :
    ((opticalTables "odonnell" = some (c1_odonnell, c2_odonnell)) ∧
      ∀ w ∈ [(10000 : ℚ), 5000, 2000, 1000],
        0.3 ≤ 10000 / w ∧ 10000 / w ≤ 11) ∧
    extinction_ratio_ccm (fun x => x)
        (.vector [10000, 5000, 2000, 1000]) 3.1 "odonnell" =
      .ok (.vector ([(10000 : ℚ), 5000, 2000, 1000].map fun w =>
        aModel (fun x => x) c1_odonnell (10000 / w) * 3.1 +
        bModel (fun x => x) c2_odonnell (10000 / w))) :=
  ⟨⟨rfl, by intro w hw; fin_cases hw <;> norm_num⟩,
    C1_result_eq_model (fun x => x) [10000, 5000, 2000, 1000] 3.1 "odonnell"
      c1_odonnell c2_odonnell rfl
      (by intro w hw; fin_cases hw <;> norm_num)⟩

/-- C2: the call fails with the domain `ValueError` exactly when some
element's inverse-micron value `x = 10000/wavelength` satisfies `x < 0.3`
or `x > 11` — strict comparisons, so `x = 0.3` and `x = 11` themselves are
valid; the failure is the single `Except.error` result of the whole call,
so no partial output ever escapes; and the message names the valid Angstrom
range. -/
theorem C2_domain_error_iff (powIR : ℚ → ℚ) (input : WaveInput) (r_v : ℚ)
    (s : String) :
    (extinction_ratio_ccm powIR input r_v s = .error (.domainError domainMsg)
      ↔ ∃ w ∈ input.toList, 10000 / w < 0.3 ∨ 11 < 10000 / w) ∧
    domainMsg =
      "extinction only defined in wavelength range [909.091, 33333.3]." := by
  refine ⟨?_, rfl⟩
  cases input with
  | scalar w =>
      rw [show extinction_ratio_ccm powIR (.scalar w) r_v s =
          (evaluateList powIR r_v s [w]).map (fun vs => .scalar vs.headI)
          from rfl,
        except_map_error_iff, evaluateList_domain_iff]
      exact Iff.rfl
  | vector ws =>
      rw [show extinction_ratio_ccm powIR (.vector ws) r_v s =
          (evaluateList powIR r_v s ws).map .vector from rfl,
        except_map_error_iff, evaluateList_domain_iff]
      exact Iff.rfl

theorem C2_witness :
    extinction_ratio_ccm (fun x => x) (.scalar 100) 3.1 "odonnell" =
      .error (.domainError domainMsg) :=
  (C2_domain_error_iff (fun x => x) (.scalar 100) 3.1 "odonnell").1.mpr
    ⟨100, List.mem_singleton_self 100, Or.inr (by norm_num)⟩

/-- C3 counterexample: wavelength 2000 Å is in range (`x = 5 ∈ [0.3, 11]`)
and `"bogus"` names no coefficient table, yet the call does NOT raise: it
returns a value, because the source only validates `optical_coeffs` inside
the optical-band block, which no element of this input reaches.  This
refutes the claim that an invalid selector raises for ANY in-range
wavelength. -/
theorem C3_counterexample :
    ((0.3 : ℚ) ≤ 10000 / 2000 ∧ (10000 : ℚ) / 2000 ≤ 11) ∧
    opticalTables "bogus" = none ∧
    (extinction_ratio_ccm (fun x => x) (.scalar 2000) 3.1 "bogus").isOk
      = true := by
  refine ⟨by norm_num, rfl, ?_⟩
  rcases extinction_cases (fun x => x) (.scalar 2000) 3.1 "bogus"
    with ⟨v, hv⟩ | h | h
  · rw [hv]; rfl
  · rw [show extinction_ratio_ccm (fun x => x) (.scalar 2000) 3.1 "bogus" =
        (evaluateList (fun x => x) 3.1 "bogus" [2000]).map
          (fun vs => ExtOutput.scalar vs.headI) from rfl,
      except_map_error_iff, evaluateList_domain_iff] at h
    obtain ⟨w, hw, hout⟩ := h
    rw [List.mem_singleton] at hw
    subst hw
    rcases hout with h' | h' <;> norm_num at h'
  · rw [show extinction_ratio_ccm (fun x => x) (.scalar 2000) 3.1 "bogus" =
        (evaluateList (fun x => x) 3.1 "bogus" [2000]).map
          (fun vs => ExtOutput.scalar vs.headI) from rfl,
      except_map_error_iff,
      evaluateList_config_iff (by intro w hw; fin_cases hw; norm_num)] at h
    obtain ⟨-, w, hw, hband⟩ := h
    rw [List.mem_singleton] at hw
    subst hw
    norm_num at hband

/-- C3 amended: for an in-range input, an `optical_coeffs` value other than
`"ccm"`/`"odonnell"` raises the configuration `ValueError` iff some
element's `x` lies in the optical band `[1.1, 3.3)`; with no element in
that band the invalid selector is silently ignored and the call returns a
result. -/
theorem C3_config_error_iff (powIR : ℚ → ℚ) (input : WaveInput) (r_v : ℚ)
    (s : String)
    (hdom : ∀ w ∈ input.toList, 0.3 ≤ 10000 / w ∧ 10000 / w ≤ 11) :
    extinction_ratio_ccm powIR input r_v s = .error (.configError s) ↔
      opticalTables s = none ∧
        ∃ w ∈ input.toList, 1.1 ≤ 10000 / w ∧ 10000 / w < 3.3 := by
  cases input with
  | scalar w =>
      rw [show extinction_ratio_ccm powIR (.scalar w) r_v s =
          (evaluateList powIR r_v s [w]).map (fun vs => .scalar vs.headI)
          from rfl,
        except_map_error_iff]
      exact evaluateList_config_iff hdom
  | vector ws =>
      rw [show extinction_ratio_ccm powIR (.vector ws) r_v s =
          (evaluateList powIR r_v s ws).map .vector from rfl,
        except_map_error_iff]
      exact evaluateList_config_iff hdom

theorem C3_amended_witness :
    (∀ w ∈ (WaveInput.scalar (5000 : ℚ)).toList,
      0.3 ≤ 10000 / w ∧ 10000 / w ≤ 11) ∧
    (extinction_ratio_ccm (fun x => x) (.scalar 5000) 3.1 "bogus" =
        .error (.configError "bogus") ↔
      opticalTables "bogus" = none ∧
        ∃ w ∈ (WaveInput.scalar (5000 : ℚ)).toList,
          1.1 ≤ 10000 / w ∧ 10000 / w < 3.3) :=
  ⟨by intro w hw; simp only [WaveInput.toList] at hw; fin_cases hw; norm_num,
    C3_config_error_iff (fun x => x) (.scalar 5000) 3.1 "bogus"
      (by intro w hw; simp only [WaveInput.toList] at hw; fin_cases hw
          norm_num)⟩

/-- C4: for an element with `3.3 ≤ x < 8`, `a` and `b` are the mid-UV base
formulas, and exactly when `5.9 < x` (strict at `5.9`) the cubic correction
in `xp = x − 5.9` is ADDED on top of those base values; elements with
`x ≤ 5.9` receive the base formulas alone.  Stated through the full call so
that the final result exhibits base-plus-correction structure. -/
theorem C4_midUV_correction (powIR : ℚ → ℚ) (w x r_v : ℚ) (s : String)
    (hx : 10000 / w = x) (h1 : 3.3 ≤ x) (h2 : x < 8) :
    extinction_ratio_ccm powIR (.scalar w) r_v s =
      .ok (.scalar
        ((1.752 - 0.316 * x - 0.104 / ((x - 4.67) ^ 2 + 0.341)
            + (if 5.9 < x then
                -0.04473 * (x - 5.9) ^ 2 - 0.009779 * (x - 5.9) ^ 3 else 0))
          * r_v
        + (-3.090 + 1.825 * x + 1.206 / ((x - 4.67) ^ 2 + 0.263)
            + (if 5.9 < x then
                0.2130 * (x - 5.9) ^ 2 + 0.1207 * (x - 5.9) ^ 3 else 0)))) := by
  have hdom : ∀ w' ∈ [w], 0.3 ≤ 10000 / w' ∧ 10000 / w' ≤ 11 := by
    intro w' hw'
    rw [List.mem_singleton] at hw'
    subst hw'
    rw [hx]
    constructor <;> linarith
  have hab : abElem powIR s x = .ok
      (1.752 - 0.316 * x - 0.104 / ((x - 4.67) ^ 2 + 0.341)
        + (if 5.9 < x then
            -0.04473 * (x - 5.9) ^ 2 - 0.009779 * (x - 5.9) ^ 3 else 0),
       -3.090 + 1.825 * x + 1.206 / ((x - 4.67) ^ 2 + 0.263)
        + (if 5.9 < x then
            0.2130 * (x - 5.9) ^ 2 + 0.1207 * (x - 5.9) ^ 3 else 0)) := by
    unfold abElem
    have hIR : ¬ maskIR x = true := by
      simp only [maskIR, decide_eq_true_eq]
      exact not_lt.mpr (by linarith)
    have hOpt : ¬ maskOptical x = true := by
      simp only [maskOptical, Bool.and_eq_true, decide_eq_true_eq]
      exact fun hc => absurd hc.2 (not_lt.mpr h1)
    rw [if_neg hIR, if_neg hOpt, if_pos ((maskMidUV_iff x).mpr ⟨h1, h2⟩)]
    rcases lt_or_le 5.9 x with h4 | h4
    · rw [if_pos ((maskCorr_iff x).mpr ⟨h4, h2⟩), if_pos h4, if_pos h4]
    · have hCorr : ¬ maskCorr x = true := by
        simp only [maskCorr, Bool.and_eq_true, decide_eq_true_eq]
        exact fun hc => absurd hc.1 (not_lt.mpr h4)
      rw [if_neg hCorr, if_neg (not_lt.mpr h4), if_neg (not_lt.mpr h4),
        add_zero, add_zero]
  rw [show extinction_ratio_ccm powIR (.scalar w) r_v s =
      (evaluateList powIR r_v s [w]).map (fun vs => ExtOutput.scalar vs.headI)
      from rfl]
  unfold evaluateList
  dsimp only
  rw [anyCheck_false hdom, if_neg (by simp), List.map_singleton, hx,
    mapExcept, hab]
  rfl

theorem C4_witness :
    ((10000 : ℚ) / 1600 = 6.25 ∧ (3.3 : ℚ) ≤ 6.25 ∧ (6.25 : ℚ) < 8) ∧
    extinction_ratio_ccm (fun y => y) (.scalar 1600) 3.1 "odonnell" =
      .ok (.scalar
        ((1.752 - 0.316 * 6.25 - 0.104 / (((6.25 : ℚ) - 4.67) ^ 2 + 0.341)
            + (if (5.9 : ℚ) < 6.25 then
                -0.04473 * ((6.25 : ℚ) - 5.9) ^ 2
                  - 0.009779 * ((6.25 : ℚ) - 5.9) ^ 3 else 0))
          * 3.1
        + (-3.090 + 1.825 * 6.25 + 1.206 / (((6.25 : ℚ) - 4.67) ^ 2 + 0.263)
            + (if (5.9 : ℚ) < 6.25 then
                0.2130 * ((6.25 : ℚ) - 5.9) ^ 2
                  + 0.1207 * ((6.25 : ℚ) - 5.9) ^ 3 else 0)))) :=
  ⟨⟨by norm_num, by norm_num, by norm_num⟩,
    C4_midUV_correction (fun y => y) 1600 6.25 3.1 "odonnell" (by norm_num)
      (by norm_num) (by norm_num)⟩

/-- C5: over the validated domain `[0.3, 11]`, the four base-region masks of
the source are functions of `x` alone, mutually exclusive and exhaustive —
exactly one of them holds for each `x`, so each element's `(a, b)` pair is
written by exactly one base region — and the additive-correction mask only
selects elements already inside the mid-UV base region. -/
theorem C5_masks_partition (x : ℚ) (_h1 : 0.3 ≤ x) (_h2 : x ≤ 11) :
    ([maskIR x, maskOptical x, maskMidUV x, maskFarUV x].count true = 1) ∧
    (maskCorr x = true → maskMidUV x = true) := by
  constructor
  · rcases lt_or_le x 1.1 with hA | hA
    · have eIR : maskIR x = true := (maskIR_iff x).mpr hA
      have eOpt : maskOptical x = false := by
        rw [Bool.eq_false_iff]
        intro hc
        exact absurd ((maskOptical_iff x).mp hc).1 (not_le.mpr hA)
      have eMid : maskMidUV x = false := by
        rw [Bool.eq_false_iff]
        intro hc
        have := ((maskMidUV_iff x).mp hc).1
        linarith
      have eFar : maskFarUV x = false := by
        rw [Bool.eq_false_iff]
        intro hc
        have := (maskFarUV_iff x).mp hc
        linarith
      rw [eIR, eOpt, eMid, eFar]
      rfl
    · have eIR : maskIR x = false := by
        rw [Bool.eq_false_iff]
        intro hc
        exact absurd ((maskIR_iff x).mp hc) (not_lt.mpr hA)
      rcases lt_or_le x 3.3 with hB | hB
      · have eOpt : maskOptical x = true := (maskOptical_iff x).mpr ⟨hA, hB⟩
        have eMid : maskMidUV x = false := by
          rw [Bool.eq_false_iff]
          intro hc
          have := ((maskMidUV_iff x).mp hc).1
          linarith
        have eFar : maskFarUV x = false := by
          rw [Bool.eq_false_iff]
          intro hc
          have := (maskFarUV_iff x).mp hc
          linarith
        rw [eIR, eOpt, eMid, eFar]
        rfl
      · have eOpt : maskOptical x = false := by
          rw [Bool.eq_false_iff]
          intro hc
          exact absurd ((maskOptical_iff x).mp hc).2 (not_lt.mpr hB)
        rcases lt_or_le x 8 with hC | hC
        · have eMid : maskMidUV x = true := (maskMidUV_iff x).mpr ⟨hB, hC⟩
          have eFar : maskFarUV x = false := by
            rw [Bool.eq_false_iff]
            intro hc
            have := (maskFarUV_iff x).mp hc
            linarith
          rw [eIR, eOpt, eMid, eFar]
          rfl
        · have eMid : maskMidUV x = false := by
            rw [Bool.eq_false_iff]
            intro hc
            exact absurd ((maskMidUV_iff x).mp hc).2 (not_lt.mpr hC)
          have eFar : maskFarUV x = true := (maskFarUV_iff x).mpr hC
          rw [eIR, eOpt, eMid, eFar]
          rfl
  · intro hc
    obtain ⟨hc1, hc2⟩ := (maskCorr_iff x).mp hc
    exact (maskMidUV_iff x).mpr ⟨by linarith, hc2⟩

theorem C5_witness :
    ((0.3 : ℚ) ≤ 6 ∧ (6 : ℚ) ≤ 11) ∧
    (([maskIR 6, maskOptical 6, maskMidUV 6, maskFarUV 6].count true = 1) ∧
      (maskCorr 6 = true → maskMidUV 6 = true)) :=
  ⟨⟨by norm_num, by norm_num⟩,
    C5_masks_partition 6 (by norm_num) (by norm_num)⟩

/-- C6: for an in-range wavelength whose `x` lies outside the optical band
`[1.1, 3.3)`, the `"ccm"` and `"odonnell"` selectors produce identical
results for every `r_v`: the two coefficient sets can only make a difference
inside that band. -/
theorem C6_selector_agree (powIR : ℚ → ℚ) (w r_v : ℚ)
    (_h1 : 0.3 ≤ 10000 / w) (_h2 : 10000 / w ≤ 11)
    (h3 : ¬(1.1 ≤ 10000 / w ∧ 10000 / w < 3.3)) :
    extinction_ratio_ccm powIR (.scalar w) r_v "ccm" =
      extinction_ratio_ccm powIR (.scalar w) r_v "odonnell" := by
  have hOpt : maskOptical (10000 / w) = false := by
    rw [Bool.eq_false_iff]
    intro hc
    exact h3 ((maskOptical_iff _).mp hc)
  have hab : abElem powIR "ccm" (10000 / w) =
      abElem powIR "odonnell" (10000 / w) := by
    unfold abElem
    rw [hOpt]
    simp
  rw [show extinction_ratio_ccm powIR (.scalar w) r_v "ccm" =
      (evaluateList powIR r_v "ccm" [w]).map
        (fun vs => ExtOutput.scalar vs.headI) from rfl,
    show extinction_ratio_ccm powIR (.scalar w) r_v "odonnell" =
      (evaluateList powIR r_v "odonnell" [w]).map
        (fun vs => ExtOutput.scalar vs.headI) from rfl]
  unfold evaluateList
  dsimp only
  rw [List.map_singleton, mapExcept, mapExcept, hab]
  rfl

theorem C6_witness :
    ((0.3 : ℚ) ≤ 10000 / 2000 ∧ (10000 : ℚ) / 2000 ≤ 11 ∧
      ¬((1.1 : ℚ) ≤ 10000 / 2000 ∧ (10000 : ℚ) / 2000 < 3.3)) ∧
    extinction_ratio_ccm (fun y => y) (.scalar 2000) 3.1 "ccm" =
      extinction_ratio_ccm (fun y => y) (.scalar 2000) 3.1 "odonnell" :=
  ⟨⟨by norm_num, by norm_num, by norm_num⟩,
    C6_selector_agree (fun y => y) 2000 3.1 (by norm_num) (by norm_num)
      (by norm_num)⟩

/-- C7: at `x = 1.82` exactly (wavelength `500000/91 ≈ 5494.5` Å), the
optical polynomials of either coefficient set are evaluated at `xp = 0` and
return their constant terms, `a = 1` and `b = 0` exactly, so the call
returns exactly `r_v` for every `r_v`. -/
theorem C7_v_band (powIR : ℚ → ℚ) (r_v : ℚ) (s : String)
    (hs : s = "ccm" ∨ s = "odonnell") :
    extinction_ratio_ccm powIR (.scalar (500000 / 91)) r_v s =
      .ok (.scalar r_v) := by
  have hx : (10000 : ℚ) / (500000 / 91) = 1.82 := by norm_num
  have hab : abElem powIR s 1.82 = .ok (1, 0) := by
    have hIR : ¬ maskIR (1.82 : ℚ) = true := by
      simp only [maskIR, decide_eq_true_eq]
      norm_num
    have hOpt : maskOptical (1.82 : ℚ) = true := by
      simp only [maskOptical, Bool.and_eq_true, decide_eq_true_eq]
      norm_num
    unfold abElem
    rw [if_neg hIR, if_pos hOpt]
    rcases hs with h | h <;> subst h
    · show Except.ok (polyval c1_ccm.reverse ((1.82 : ℚ) - 1.82),
        polyval c2_ccm.reverse ((1.82 : ℚ) - 1.82)) = _
      norm_num [polyval, c1_ccm, c2_ccm]
    · show Except.ok (polyval c1_odonnell.reverse ((1.82 : ℚ) - 1.82),
        polyval c2_odonnell.reverse ((1.82 : ℚ) - 1.82)) = _
      norm_num [polyval, c1_odonnell, c2_odonnell]
  have hdom : ∀ w ∈ [(500000 : ℚ) / 91], 0.3 ≤ 10000 / w ∧ 10000 / w ≤ 11 := by
    intro w hw
    rw [List.mem_singleton] at hw
    subst hw
    rw [hx]
    norm_num
  rw [show extinction_ratio_ccm powIR (.scalar (500000 / 91)) r_v s =
      (evaluateList powIR r_v s [500000 / 91]).map
        (fun vs => ExtOutput.scalar vs.headI) from rfl]
  unfold evaluateList
  dsimp only
  rw [anyCheck_false hdom, if_neg (by simp), List.map_singleton, hx,
    mapExcept, hab]
  show Except.ok (ExtOutput.scalar (1 * r_v + 0)) = .ok (.scalar r_v)
  rw [one_mul, add_zero]

theorem C7_witness :
    ("ccm" = "ccm" ∨ "ccm" = "odonnell") ∧
    extinction_ratio_ccm (fun y => y) (.scalar (500000 / 91)) 3.1 "ccm" =
      .ok (.scalar 3.1) :=
  ⟨Or.inl rfl, C7_v_band (fun y => y) 3.1 "ccm" (Or.inl rfl)⟩

/-- On success, the raveled pipeline returns one value per input element,
in order, each computed from its own element alone. -/
theorem evaluateList_ok_elem {powIR : ℚ → ℚ} {r_v : ℚ} {s : String}
    {ws vs : List ℚ} (h : evaluateList powIR r_v s ws = .ok vs) :
    vs.length = ws.length ∧
    ∀ i (h1 : i < ws.length) (h2 : i < vs.length),
      ∃ p, abElem powIR s (10000 / ws.get ⟨i, h1⟩) = .ok p ∧
        vs.get ⟨i, h2⟩ = p.1 * r_v + p.2 := by
  unfold evaluateList at h
  dsimp only at h
  by_cases hAny : ((ws.map fun w => 10000 / w).any
      fun x => decide (x < 0.3) || decide (11 < x)) = true
  · rw [if_pos hAny] at h
    exact absurd h (by simp)
  · rw [if_neg hAny, except_map_eq_ok] at h
    obtain ⟨ps, hps, hvs⟩ := h
    obtain ⟨hlen, hget⟩ := mapExcept_ok_spec hps
    subst hvs
    refine ⟨by simp [hlen], ?_⟩
    intro i h1 h2
    have h1m : i < (ws.map fun w => 10000 / w).length := by simpa using h1
    have h2p : i < ps.length := by simpa using h2
    refine ⟨ps.get ⟨i, h2p⟩, ?_, ?_⟩
    · have hg := hget i h1m h2p
      rwa [show (ws.map fun w => 10000 / w).get ⟨i, h1m⟩ =
          10000 / ws.get ⟨i, h1⟩ from by
        simp [List.get_eq_getElem, List.getElem_map]] at hg
    · simp [List.get_eq_getElem, List.getElem_map]

/-- C8: output shape mirrors input shape — a scalar wavelength yields a
scalar output (not a length-1 sequence) computed from that wavelength, and a
vector of `N` wavelengths yields a vector of exactly `N` outputs in the same
order, the `i`-th computed from the `i`-th input wavelength. -/
theorem C8_shape (powIR : ℚ → ℚ) (r_v : ℚ) (s : String) :
    (∀ w v, extinction_ratio_ccm powIR (.scalar w) r_v s = .ok v →
      ∃ p, abElem powIR s (10000 / w) = .ok p ∧
        v = .scalar (p.1 * r_v + p.2)) ∧
    (∀ ws v, extinction_ratio_ccm powIR (.vector ws) r_v s = .ok v →
      ∃ qs, v = .vector qs ∧ qs.length = ws.length ∧
        ∀ i (h1 : i < ws.length) (h2 : i < qs.length),
          ∃ p, abElem powIR s (10000 / ws.get ⟨i, h1⟩) = .ok p ∧
            qs.get ⟨i, h2⟩ = p.1 * r_v + p.2) := by
  constructor
  · intro w v hok
    rw [show extinction_ratio_ccm powIR (.scalar w) r_v s =
        (evaluateList powIR r_v s [w]).map
          (fun vs => ExtOutput.scalar vs.headI) from rfl,
      except_map_eq_ok] at hok
    obtain ⟨vs, hvl, hv⟩ := hok
    obtain ⟨hlen, hget⟩ := evaluateList_ok_elem hvl
    cases vs with
    | nil => exact absurd hlen (by simp)
    | cons q qs =>
        obtain ⟨p, hp, hq⟩ := hget 0 (by simp) (by simp)
        refine ⟨p, ?_, ?_⟩
        · simpa using hp
        · rw [← hv]
          simpa using congrArg ExtOutput.scalar hq
  · intro ws v hok
    rw [show extinction_ratio_ccm powIR (.vector ws) r_v s =
        (evaluateList powIR r_v s ws).map .vector from rfl,
      except_map_eq_ok] at hok
    obtain ⟨vs, hvl, hv⟩ := hok
    obtain ⟨hlen, hget⟩ := evaluateList_ok_elem hvl
    exact ⟨vs, hv.symm, hlen, hget⟩

theorem C8_witness :
    extinction_ratio_ccm (fun y => y) (.scalar 10000) 3.1 "odonnell" =
      .ok (.scalar 1.2524) ∧
    ∃ p, abElem (fun y => y) "odonnell" (10000 / 10000) = .ok p ∧
      ExtOutput.scalar 1.2524 = .scalar (p.1 * 3.1 + p.2) := by
  have hres : extinction_ratio_ccm (fun y => y) (.scalar 10000) 3.1
      "odonnell" = .ok (.scalar 1.2524) := by
    have hab : abElem (fun y => y) "odonnell" (10000 / 10000 : ℚ) =
        .ok (0.574 * 1, -0.527 * 1) := by
      have hx : (10000 : ℚ) / 10000 = 1 := by norm_num
      rw [hx]
      unfold abElem
      rw [if_pos ((maskIR_iff 1).mpr (by norm_num))]
    rw [show extinction_ratio_ccm (fun y => y) (.scalar 10000) 3.1
        "odonnell" =
        (evaluateList (fun y => y) 3.1 "odonnell" [10000]).map
          (fun vs => ExtOutput.scalar vs.headI) from rfl]
    unfold evaluateList
    dsimp only
    rw [if_neg (by norm_num), List.map_singleton, mapExcept, hab]
    show Except.ok (ExtOutput.scalar ((0.574 * 1) * 3.1 + -0.527 * 1)) = _
    norm_num
  exact ⟨hres, (C8_shape (fun y => y) 3.1 "odonnell").1 10000
    (.scalar 1.2524) hres⟩

/-- C10: every non-positive wavelength fails the domain check and the call
returns the domain error, never a value: for `w < 0` the inverse-micron
value `10000/w` is negative, hence `< 0.3`; for `w = 0` exact rational
division gives `10000/0 = 0 < 0.3` (IEEE float division gives `+∞ > 11`
instead), so in either arithmetic the element is out of range. -/
theorem C10_nonpositive (powIR : ℚ → ℚ) (w r_v : ℚ) (s : String)
    (hw : w ≤ 0) :
    extinction_ratio_ccm powIR (.scalar w) r_v s =
      .error (.domainError domainMsg) := by
  have hx : 10000 / w ≤ 0 := by
    rcases eq_or_lt_of_le hw with h0 | h0
    · rw [h0, div_zero]
    · exact le_of_lt (div_neg_of_pos_of_neg (by norm_num) h0)
  rw [show extinction_ratio_ccm powIR (.scalar w) r_v s =
      (evaluateList powIR r_v s [w]).map (fun vs => ExtOutput.scalar vs.headI)
      from rfl,
    show evaluateList powIR r_v s [w] = .error (.domainError domainMsg) from
      evaluateList_domain_iff.mpr ⟨w, List.mem_singleton_self w,
        Or.inl (lt_of_le_of_lt hx (by norm_num))⟩]
  rfl

theorem C10_witness :
    ((0 : ℚ) ≤ 0) ∧
    extinction_ratio_ccm (fun y => y) (.scalar 0) 3.1 "odonnell" =
      .error (.domainError domainMsg) :=
  ⟨le_refl 0, C10_nonpositive (fun y => y) 0 3.1 "odonnell" (le_refl 0)⟩
